import Mathlib

/-!
Shallow embedding of `src/roadreport/report.py` (RoadReport, the reporting and
export system): the data-processing pipeline (filter, sort, group, aggregate),
the output formatters, the in-memory store, and the generation lifecycle.

Modelling conventions:
* Python runtime values occurring in report rows and filters are modelled by
  the inductive type `Value`, covering None, bool, int, str and list values
  (floats are outside the modelled universe; none of the code paths examined
  here produce or consume them except the avg aggregation, whose division is
  modelled exactly as a rational).
* Python exceptions are modelled by `Except String`; an operation that can
  raise returns `Except.error msg`.  Message texts are descriptive, not
  byte-identical to CPython messages.
* A Python dict is modelled as an association list with unique keys; `dictGet`
  and `dictSet` give the lookup/insert-or-overwrite semantics used by the code.
* `sorted` (Timsort) is modelled by a stable insertion sort; the two agree on
  every input whose performed key comparisons form a consistent total order,
  and both raise on incomparable keys (possibly after a different sequence of
  comparisons).  `reverse=True` is modelled by the stable descending insertion
  sort, which is what CPython's reverse-sort-reverse implementation computes.
* Ambient effects (uuid generation, wall-clock readings) are threaded through
  an explicit `Env` record; every `datetime.now()` call during one generation
  is modelled by the single ambient timestamp `Env.now`.
-/

/-- A Python runtime value as it occurs in report rows and filter values. -/
inductive Value where
  | none : Value
  | bool (b : Bool) : Value
  | int (n : Int) : Value
  | str (s : String) : Value
  | list (vs : List Value) : Value

/-- Numeric view of a value: Python treats `bool` as a numeric subtype of
`int` for `==` and order comparisons (`True == 1`, `True < 2`). -/
def Value.toNum? : Value → Option Int
  | .int n => some n
  | .bool b => some (if b then 1 else 0)
  | _ => Option.none

mutual

/-- Python `==` on the modelled values: total, never raises.  Numbers compare
numerically across bool/int, strings by equality, lists elementwise; values of
different (non-numeric) types compare unequal. -/
def veq : Value → Value → Bool
  | .none, .none => true
  | .str s, .str t => s == t
  | .list as, .list bs => veqList as bs
  | a, b =>
    match a.toNum?, b.toNum? with
    | some x, some y => x == y
    | _, _ => false

def veqList : List Value → List Value → Bool
  | [], [] => true
  | a :: as, b :: bs => veq a b && veqList as bs
  | _, _ => false

end

/-- Python `<` on strings: lexicographic comparison of code points. -/
def charsLt : List Char → List Char → Bool
  | [], [] => false
  | [], _ :: _ => true
  | _ :: _, [] => false
  | a :: as, b :: bs => a < b || (a == b && charsLt as bs)

/-- Python `<=` on strings. -/
def charsLe : List Char → List Char → Bool
  | [], _ => true
  | _ :: _, [] => false
  | a :: as, b :: bs => a < b || (a == b && charsLe as bs)

mutual

/-- Python `<` on the modelled values: numbers numerically, strings
lexicographically by code point, lists lexicographically (skipping `==` equal
prefixes, as CPython does); any other combination raises TypeError. -/
def vlt : Value → Value → Except String Bool
  | .str s, .str t => .ok (charsLt s.toList t.toList)
  | .list as, .list bs => vltList as bs
  | a, b =>
    match a.toNum?, b.toNum? with
    | some x, some y => .ok (decide (x < y))
    | _, _ => .error "TypeError: comparison not supported between these operand types"

def vltList : List Value → List Value → Except String Bool
  | [], [] => .ok false
  | [], _ :: _ => .ok true
  | _ :: _, [] => .ok false
  | a :: as, b :: bs => if veq a b then vltList as bs else vlt a b

end

mutual

/-- Python `<=` on the modelled values, with the same domain as `vlt`. -/
def vle : Value → Value → Except String Bool
  | .str s, .str t => .ok (charsLe s.toList t.toList)
  | .list as, .list bs => vleList as bs
  | a, b =>
    match a.toNum?, b.toNum? with
    | some x, some y => .ok (decide (x ≤ y))
    | _, _ => .error "TypeError: comparison not supported between these operand types"

def vleList : List Value → List Value → Except String Bool
  | [], [] => .ok true
  | [], _ :: _ => .ok true
  | _ :: _, [] => .ok false
  | a :: as, b :: bs => if veq a b then vleList as bs else vle a b

end

mutual

/-- Python `repr` of a value.  For strings the CPython quote-selection and
escape rules are approximated by single quotes with backslash/quote escaping;
no claim examined here evaluates `repr` on strings containing quotes. -/
def pyrepr : Value → String
  | .none => "None"
  | .bool b => if b then "True" else "False"
  | .int n => toString n
  | .str s => "'" ++ String.join (s.toList.map fun c =>
      if c = '\\' then "\\\\" else if c = '\'' then "\\'" else String.singleton c) ++ "'"
  | .list vs => "[" ++ pyreprList vs ++ "]"

def pyreprList : List Value → String
  | [] => ""
  | [v] => pyrepr v
  | v :: vs => pyrepr v ++ ", " ++ pyreprList vs

end

/-- Python `str` of a value: like `repr` except that strings render as
themselves. -/
def pystr : Value → String
  | .str s => s
  | v => pyrepr v

/-- Lookup in a Python dict modelled as an association list (`d.get(k)`
without default → `Option`). -/
def dictGet {α : Type} (m : List (String × α)) (k : String) : Option α :=
  (m.find? (fun p => p.1 == k)).map (fun p => p.2)

/-- Insert-or-overwrite in a Python dict modelled as an association list
(`d[k] = v`): an existing key keeps its position, a new key is appended. -/
def dictSet {α : Type} (m : List (String × α)) (k : String) (v : α) : List (String × α) :=
  if m.any (fun p => p.1 == k) then
    m.map (fun p => if p.1 == k then (k, v) else p)
  else
    m ++ [(k, v)]

/-- A report data row: a Python dict from field name to value. -/
abbrev Row := List (String × Value)

/-- Python `row.get(field)`: missing keys yield `None`. -/
def pyGet (row : Row) (k : String) : Value :=
  match dictGet row k with
  | some v => v
  | Option.none => Value.none

/-- Python `row.get(field, default)`. -/
def pyGetD (row : Row) (k : String) (d : Value) : Value :=
  match dictGet row k with
  | some v => v
  | Option.none => d

/-- Whether the first character list starts the second. -/
def startsWithChars : List Char → List Char → Bool
  | [], _ => true
  | _ :: _, [] => false
  | a :: as, b :: bs => a == b && startsWithChars as bs

/-- Whether the first character list occurs contiguously inside the second. -/
def subChars (needle : List Char) : List Char → Bool
  | [] => needle.isEmpty
  | c :: t => startsWithChars needle (c :: t) || subChars needle t

/-- Python substring test `needle in hay` for strings (contiguous run;
the empty string is a substring of everything). -/
def strContains (hay needle : String) : Bool :=
  subChars needle.toList hay.toList

/-- One report filter: `ReportFilter` from the source
(field, operator in eq, ne, gt, lt, gte, lte, contains, in, value). -/
structure ReportFilter where
  field : String
  operator : String
  value : Value

namespace DataProcessor

/-- `DataProcessor._apply_filter(value, operator, filter_value)`: the
per-operator predicate.  Order comparisons raise on incomparable operand
types; `contains` raises when the filter value is not a string; `in` raises
when the filter value is not a container; every unrecognized operator falls
through to `True`. -/
def _apply_filter (value : Value) (operator : String) (filter_value : Value) :
    Except String Bool :=
  if operator = "eq" then .ok (veq value filter_value)
  else if operator = "ne" then .ok (!veq value filter_value)
  else if operator = "gt" then vlt filter_value value
  else if operator = "lt" then vlt value filter_value
  else if operator = "gte" then vle filter_value value
  else if operator = "lte" then vle value filter_value
  else if operator = "contains" then
    match filter_value with
    | .str s => .ok (strContains (pystr value) s)
    | _ => .error "TypeError: in <string> requires string as left operand"
  else if operator = "in" then
    match filter_value with
    | .list vs => .ok (vs.any (fun e => veq e value))
    | .str s =>
      match value with
      | .str t => .ok (strContains s t)
      | _ => .error "TypeError: in <string> requires string as left operand"
    | _ => .error "TypeError: argument of type is not iterable"
  else .ok true

/-- One pass of the list comprehension
`[row for row in result if self._apply_filter(...)]`: rows are tested in
order and the first raising test aborts the pass. -/
def filterPass (p : Row → Except String Bool) : List Row → Except String (List Row)
  | [] => .ok []
  | r :: rs =>
    match p r with
    | .error e => .error e
    | .ok b =>
      match filterPass p rs with
      | .error e => .error e
      | .ok rest => .ok (if b then r :: rest else rest)

/-- `DataProcessor.filter(data, filters)`: apply each filter in order as one
comprehension pass over the surviving rows. -/
def filter (data : List Row) (filters : List ReportFilter) : Except String (List Row) :=
  filters.foldlM
    (fun result f => filterPass (fun row => _apply_filter (pyGet row f.field) f.operator f.value) result)
    data

/-- Insert into an ascending stably sorted prefix: the new element passes
every element it is not strictly below, so equal keys keep their original
relative order. -/
def insertAsc {α : Type} (key : α → Value) (acc : List α) (r : α) : Except String (List α) :=
  match acc with
  | [] => .ok [r]
  | x :: xs =>
    match vlt (key r) (key x) with
    | .error e => .error e
    | .ok true => .ok (r :: x :: xs)
    | .ok false =>
      match insertAsc key xs r with
      | .error e => .error e
      | .ok out => .ok (x :: out)

/-- Insert into a descending stably sorted prefix: the new element passes
every element that is not strictly below it. -/
def insertDesc {α : Type} (key : α → Value) (acc : List α) (r : α) : Except String (List α) :=
  match acc with
  | [] => .ok [r]
  | x :: xs =>
    match vlt (key x) (key r) with
    | .error e => .error e
    | .ok true => .ok (r :: x :: xs)
    | .ok false =>
      match insertDesc key xs r with
      | .error e => .error e
      | .ok out => .ok (x :: out)

/-- Stable ascending sort (the model of CPython `sorted(..., reverse=False)`). -/
def sortAscE {α : Type} (key : α → Value) (data : List α) : Except String (List α) :=
  data.foldlM (insertAsc key) []

/-- Stable descending sort (the model of CPython `sorted(..., reverse=True)`,
which CPython implements by reversing before and after an ascending stable
sort; equal keys keep their original relative order). -/
def sortDescE {α : Type} (key : α → Value) (data : List α) : Except String (List α) :=
  data.foldlM (insertDesc key) []

/-- Python `str.lower()` restricted to ASCII letters (the only case the code
exercises is matching the order word `desc`; full Unicode case mapping is out
of the modelled universe). -/
def pyLower (s : String) : String :=
  String.mk (s.toList.map (fun c =>
    if 'A' ≤ c && c ≤ 'Z' then Char.ofNat (c.toNat + 32) else c))

/-- The sort key of `DataProcessor.sort`: `lambda x: x.get(field, "")`. -/
def sortKey (field : String) (r : Row) : Value :=
  pyGetD r field (.str "")

/-- `DataProcessor.sort(data, field, order)`: stable sort by
`row.get(field, "")`, descending exactly when `order.lower() == "desc"`. -/
def sort (data : List Row) (field : String) (order : String) : Except String (List Row) :=
  if pyLower order = "desc" then sortDescE (sortKey field) data
  else sortAscE (sortKey field) data

/-- `DataProcessor.group(data, field)`: partition rows by the stringified
field value, groups ordered by first occurrence. -/
def group (data : List Row) (field : String) : List (String × List Row) :=
  data.foldl
    (fun groups row =>
      let k := pystr (pyGetD row field (.str ""))
      match dictGet groups k with
      | some rows => dictSet groups k (rows ++ [row])
      | Option.none => dictSet groups k [row])
    []

/-- A value stored in the aggregation result dict: integer results for
sum/count, the exact rational for a nonempty avg (CPython float division is
modelled exactly), a picked element for min/max, or None. -/
inductive AggVal where
  | int (n : Int) : AggVal
  | rat (q : ℚ) : AggVal
  | val (v : Value) : AggVal
  | none : AggVal

/-- The non-null values of a field across all rows:
`[row.get(field) for row in data if row.get(field) is not None]`. -/
def valuesOf (data : List Row) (field : String) : List Value :=
  data.filterMap (fun row =>
    match pyGet row field with
    | .none => Option.none
    | v => some v)

/-- Python `sum(values)`: starts from the int 0 and adds, raising on any
non-numeric value. -/
def sumE (values : List Value) : Except String Int :=
  values.foldlM
    (fun acc v =>
      match v.toNum? with
      | some n => .ok (acc + n)
      | Option.none => .error "TypeError: unsupported operand type for +")
    0

/-- Python `min(values)` on a nonempty list: keep the current minimum,
replacing it whenever a later value compares strictly below it. -/
def minE (v : Value) (values : List Value) : Except String Value :=
  values.foldlM
    (fun m x =>
      match vlt x m with
      | .error e => .error e
      | .ok true => .ok x
      | .ok false => .ok m)
    v

/-- Python `max(values)` on a nonempty list. -/
def maxE (v : Value) (values : List Value) : Except String Value :=
  values.foldlM
    (fun m x =>
      match vlt m x with
      | .error e => .error e
      | .ok true => .ok x
      | .ok false => .ok m)
    v

/-- The loop body of `DataProcessor.aggregate`: for one field/function entry
compute over the non-null values of the field; an unsupported function name
emits no key.  The aggregations argument is a Python dict, so its keys are
pairwise distinct; the result dict is modelled by appending one entry per
supported function name. -/
def aggStep (data : List Row) (result : List (String × AggVal)) (fa : String × String) :
    Except String (List (String × AggVal)) := do
      let values := valuesOf data fa.1
      if fa.2 = "sum" then
        let s ← sumE values
        pure (result ++ [(fa.1, AggVal.int s)])
      else if fa.2 = "avg" then
        match values with
        | [] => pure (result ++ [(fa.1, AggVal.int 0)])
        | v :: vs =>
          let s ← sumE (v :: vs)
          pure (result ++ [(fa.1, AggVal.rat ((s : ℚ) / (v :: vs).length))])
      else if fa.2 = "min" then
        match values with
        | [] => pure (result ++ [(fa.1, AggVal.none)])
        | v :: vs =>
          let m ← minE v vs
          pure (result ++ [(fa.1, AggVal.val m)])
      else if fa.2 = "max" then
        match values with
        | [] => pure (result ++ [(fa.1, AggVal.none)])
        | v :: vs =>
          let m ← maxE v vs
          pure (result ++ [(fa.1, AggVal.val m)])
      else if fa.2 = "count" then
        pure (result ++ [(fa.1, AggVal.int values.length)])
      else
        pure result

/-- `DataProcessor.aggregate(data, aggregations)`: fold `aggStep` over the
entries in order, starting from the empty result dict. -/
def aggregate (data : List Row) (aggregations : List (String × String)) :
    Except String (List (String × AggVal)) :=
  aggregations.foldlM (aggStep data) []

end DataProcessor

/-- `ReportFormat` from the source: the output format enum. -/
inductive ReportFormat where
  | json | csv | html | pdf | excel | markdown
deriving DecidableEq

/-- `ReportStatus` from the source: the generation status enum. -/
inductive ReportStatus where
  | pending | generating | completed | failed
deriving DecidableEq

/-- `ReportColumn` from the source.  The optional formatter callback is a
caller-supplied Python function and may raise, hence `Except`. -/
structure ReportColumn where
  name : String
  field : String
  formatter : Option (Value → Except String String) := Option.none
  width : Option Int := Option.none
  sortable : Bool := true
  filterable : Bool := true

/-- `ReportDefinition` from the source.  The data-source callback is a
caller-supplied zero-argument Python function and may raise. -/
structure ReportDefinition where
  id : String
  name : String
  description : String := ""
  columns : List ReportColumn := []
  data_source : Option (Unit → Except String (List Row)) := Option.none
  filters : List ReportFilter := []
  sort_by : Option String := Option.none
  sort_order : String := "asc"
  group_by : Option String := Option.none
  aggregations : List (String × String) := []
  metadata : List (String × Value) := []

/-- A JSON-serializable value (the shape handed to `json.dumps`). -/
inductive JVal where
  | null : JVal
  | bool (b : Bool) : JVal
  | int (n : Int) : JVal
  | str (s : String) : JVal
  | arr (xs : List JVal) : JVal
  | obj (kvs : List (String × JVal)) : JVal

mutual

/-- Canonical JSON image of a row value. -/
def jOfValue : Value → JVal
  | .none => .null
  | .bool b => .bool b
  | .int n => .int n
  | .str s => .str s
  | .list vs => .arr (jOfValueList vs)

def jOfValueList : List Value → List JVal
  | [] => []
  | v :: vs => jOfValue v :: jOfValueList vs

end

/-- Canonical JSON image of a row (a dict of field values). -/
def jOfRow (row : Row) : JVal :=
  .obj (row.map (fun p => (p.1, jOfValue p.2)))

/-- JSON string escaping: quote, backslash and the common control characters.
CPython additionally escapes other control characters and, with the default
`ensure_ascii=True`, all non-ASCII characters; no claim examined here
serializes such strings. -/
def jEscape (s : String) : String :=
  String.join (s.toList.map fun c =>
    if c = '"' then "\\\""
    else if c = '\\' then "\\\\"
    else if c = '\n' then "\\n"
    else if c = '\t' then "\\t"
    else if c = '\r' then "\\r"
    else String.singleton c)

/-- `2 * n` spaces: the indentation prefix at nesting depth `n` under
`json.dumps(..., indent=2)`. -/
def jPad (n : Nat) : String :=
  String.mk (List.replicate (2 * n) ' ')

mutual

/-- `json.dumps(v, indent=2)`: pretty-printed JSON text at nesting depth
`lvl`. -/
def dumps (lvl : Nat) : JVal → String
  | .null => "null"
  | .bool b => if b then "true" else "false"
  | .int n => toString n
  | .str s => "\"" ++ jEscape s ++ "\""
  | .arr [] => "[]"
  | .arr (x :: xs) =>
    "[\n" ++ dumpsItems (lvl + 1) (x :: xs) ++ "\n" ++ jPad lvl ++ "]"
  | .obj [] => "\x7b\x7d"
  | .obj (kv :: kvs) =>
    "\x7b\n" ++ dumpsFields (lvl + 1) (kv :: kvs) ++ "\n" ++ jPad lvl ++ "\x7d"

def dumpsItems (lvl : Nat) : List JVal → String
  | [] => ""
  | [x] => jPad lvl ++ dumps lvl x
  | x :: y :: xs => jPad lvl ++ dumps lvl x ++ ",\n" ++ dumpsItems lvl (y :: xs)

def dumpsFields (lvl : Nat) : List (String × JVal) → String
  | [] => ""
  | [kv] => jPad lvl ++ "\"" ++ jEscape kv.1 ++ "\": " ++ dumps lvl kv.2
  | kv :: kv2 :: kvs =>
    jPad lvl ++ "\"" ++ jEscape kv.1 ++ "\": " ++ dumps lvl kv.2 ++ ",\n" ++
      dumpsFields lvl (kv2 :: kvs)

end

namespace ReportFormatter

/-- The dict built by `ReportFormatter._to_json` before serialization:
report name, generation timestamp, row count, column display names, and the
rows themselves. -/
def toJsonObj (definition : ReportDefinition) (data : List Row) (now : String) : JVal :=
  JVal.obj
    [("report", .str definition.name),
     ("generated_at", .str now),
     ("row_count", .int data.length),
     ("columns", .arr (definition.columns.map (fun c => .str c.name))),
     ("data", .arr (data.map jOfRow))]

/-- `ReportFormatter._to_json`: serialize the output dict with 2-space
indentation.  Total: every modelled value is JSON-serializable (and the
source passes `default=str` so even unserializable ones would not raise). -/
def _to_json (definition : ReportDefinition) (data : List Row) (now : String) : String :=
  dumps 0 (toJsonObj definition data now)

/-- The display string the per-column value rule produces for one row and
column: `row.get(col.field, "")`, passed through the column formatter when
present.  Raises exactly when the formatter callback raises. -/
def cellText (col : ReportColumn) (row : Row) : Except String String :=
  let value := pyGetD row col.field (.str "")
  match col.formatter with
  | some f => f value
  | Option.none => .ok (pystr value)

/-- CSV field quoting (QUOTE_MINIMAL): wrap in double quotes when the text
contains a delimiter, quote, or newline character, doubling inner quotes. -/
def csvField (s : String) : String :=
  if s.toList.any (fun c => c = ',' || c = '"' || c = '\n' || c = '\r') then
    "\"" ++ String.join (s.toList.map fun c =>
      if c = '"' then "\"\"" else String.singleton c) ++ "\""
  else s

/-- One CSV record with the csv module default line terminator. -/
def csvRow (cells : List String) : String :=
  String.intercalate "," (cells.map csvField) ++ "\r\n"

/-- The string the csv module writes for an unformatted cell value: `None`
becomes the empty field, everything else its `str` text. -/
def csvText (col : ReportColumn) (row : Row) : Except String String :=
  let value := pyGetD row col.field (.str "")
  match col.formatter with
  | some f => f value
  | Option.none =>
    .ok (match value with
      | .none => ""
      | v => pystr v)

/-- `ReportFormatter._to_csv`: a header record of column display names, then
one record per row with the per-column value rule.  The source zips the
column field names with the display names into a dict, so pairwise-distinct
field names (as every dict has) render exactly the display names. -/
def _to_csv (definition : ReportDefinition) (data : List Row) : Except String String := do
  let header := csvRow (definition.columns.map (fun c => c.name))
  let rows ← data.mapM (fun row => do
    let cells ← definition.columns.mapM (fun col => csvText col row)
    pure (csvRow cells))
  pure (header ++ String.join rows)

/-- `ReportFormatter._to_html`: the fixed document template around a table of
the per-column display strings (f-string interpolation applies `str` to raw
values). -/
def _to_html (definition : ReportDefinition) (data : List Row) (now : String) :
    Except String String := do
  let head :=
    "<!DOCTYPE html>\n<html>\n<head>\n    <title>" ++ definition.name ++
    "</title>\n    <style>\n        body \x7b font-family: Arial, sans-serif; margin: 20px; \x7d\n" ++
    "        h1 \x7b color: #333; \x7d\n" ++
    "        table \x7b border-collapse: collapse; width: 100%; \x7d\n" ++
    "        th, td \x7b border: 1px solid #ddd; padding: 8px; text-align: left; \x7d\n" ++
    "        th \x7b background-color: #4CAF50; color: white; \x7d\n" ++
    "        tr:nth-child(even) \x7b background-color: #f2f2f2; \x7d\n" ++
    "    </style>\n</head>\n<body>\n    <h1>" ++ definition.name ++
    "</h1>\n    <p>Generated: " ++ now ++ "</p>\n    <p>Rows: " ++
    toString data.length ++ "</p>\n    <table>\n        <tr>\n"
  let headerCells := String.join (definition.columns.map
    (fun col => "            <th>" ++ col.name ++ "</th>\n"))
  let bodyRows ← data.mapM (fun row => do
    let cells ← definition.columns.mapM (fun col => do
      let text ← cellText col row
      pure ("            <td>" ++ text ++ "</td>\n"))
    pure ("        <tr>\n" ++ String.join cells ++ "        </tr>\n"))
  pure (head ++ headerCells ++ "        </tr>\n" ++ String.join bodyRows ++
    "    </table>\n</body>\n</html>")

/-- `ReportFormatter._to_markdown`: heading, timestamp line, then a pipe
table of display names and per-column display strings. -/
def _to_markdown (definition : ReportDefinition) (data : List Row) (now : String) :
    Except String String := do
  let headers := definition.columns.map (fun col => col.name)
  let headLines :=
    ["# " ++ definition.name, "", "Generated: " ++ now, "",
     "| " ++ String.intercalate " | " headers ++ " |",
     "| " ++ String.intercalate " | " (headers.map (fun _ => "---")) ++ " |"]
  let rowLines ← data.mapM (fun row => do
    let cells ← definition.columns.mapM (fun col => cellText col row)
    pure ("| " ++ String.intercalate " | " cells ++ " |"))
  pure (String.intercalate "\n" (headLines ++ rowLines))

/-- `ReportFormatter.format`: dispatch on the output format with JSON as the
fallback for every unhandled format (PDF and Excel). -/
def format (definition : ReportDefinition) (data : List Row)
    (output_format : ReportFormat) (now : String) : Except String String :=
  if output_format = ReportFormat.json then .ok (_to_json definition data now)
  else if output_format = ReportFormat.csv then _to_csv definition data
  else if output_format = ReportFormat.html then _to_html definition data now
  else if output_format = ReportFormat.markdown then _to_markdown definition data now
  else .ok (_to_json definition data now)

end ReportFormatter

/-- `GeneratedReport` from the source.  Bytes content is modelled as the
UTF-8 string it decodes to; timestamps as opaque strings; the elapsed
wall-clock milliseconds as an exact rational. -/
structure GeneratedReport where
  id : String
  definition_id : String
  format : ReportFormat
  status : ReportStatus := ReportStatus.pending
  content : Option String := Option.none
  row_count : Nat := 0
  generated_at : Option String := Option.none
  generation_time_ms : ℚ := 0
  error : Option String := Option.none
  metadata : List (String × Value) := []

/-- `ReportStore` from the source: three independent id-keyed dicts.  The
mutex only serializes writes and is invisible in this sequential model. -/
structure ReportStore where
  definitions : List (String × ReportDefinition) := []
  reports : List (String × GeneratedReport) := []
  schedules : List (String × Value) := []

namespace ReportStore

/-- `ReportStore.save_definition`. -/
def save_definition (store : ReportStore) (definition : ReportDefinition) : ReportStore :=
  { store with definitions := dictSet store.definitions definition.id definition }

/-- `ReportStore.get_definition`: absent-value lookup, never raises. -/
def get_definition (store : ReportStore) (def_id : String) : Option ReportDefinition :=
  dictGet store.definitions def_id

/-- `ReportStore.save_report`. -/
def save_report (store : ReportStore) (report : GeneratedReport) : ReportStore :=
  { store with reports := dictSet store.reports report.id report }

/-- `ReportStore.get_report`: absent-value lookup, never raises. -/
def get_report (store : ReportStore) (report_id : String) : Option GeneratedReport :=
  dictGet store.reports report_id

end ReportStore

/-- Ambient effects of one `generate` call: the fresh uuid4 for the report
id, the wall-clock timestamp read by `datetime.now()`, and the measured
elapsed milliseconds. -/
structure Env where
  uuid : String
  now : String
  elapsedMs : ℚ

namespace ReportGenerator

/-- The body of the try-block of `ReportGenerator.generate`: pull rows from
the data source (empty without one), apply the definition filters followed by
the caller filters, sort when `sort_by` is set, then format.  Returns the
formatted content and the processed row count, or the first failure. -/
def runPipeline (definition : ReportDefinition) (output_format : ReportFormat)
    (filters : List ReportFilter) (now : String) : Except String (String × Nat) := do
  let data ←
    match definition.data_source with
    | some ds => ds ()
    | Option.none => Except.ok []
  let data ← DataProcessor.filter data (definition.filters ++ filters)
  let data ←
    match definition.sort_by with
    | some f => DataProcessor.sort data f definition.sort_order
    | Option.none => Except.ok data
  let content ← ReportFormatter.format definition data output_format now
  Except.ok (content, data.length)

/-- `ReportGenerator.generate`: create the report with status=generating,
run the pipeline, finalize to completed (content, row count, timestamp) or
failed (error message), record the elapsed time, save to the store, return.
Total: the except-block converts every pipeline failure into a failed
report. -/
def generate (store : ReportStore) (definition : ReportDefinition)
    (output_format : ReportFormat) (filters : List ReportFilter) (env : Env) :
    GeneratedReport × ReportStore :=
  let report : GeneratedReport :=
    { id := env.uuid
      definition_id := definition.id
      format := output_format
      status := ReportStatus.generating }
  let report :=
    match runPipeline definition output_format filters env.now with
    | .ok (content, n) =>
      { report with
          content := some content
          row_count := n
          status := ReportStatus.completed
          generated_at := some env.now }
    | .error e =>
      { report with status := ReportStatus.failed, error := some e }
  let report := { report with generation_time_ms := env.elapsedMs }
  (report, store.save_report report)

end ReportGenerator

/-- The plain filter descriptors `ReportManager.generate` receives
(dicts with field/operator/value entries). -/
structure FilterSpec where
  field : String
  operator : String
  value : Value

namespace ReportManager

/-- `ReportManager.generate`: resolve the definition id; an unknown id
returns the absent result without creating or storing anything; otherwise
convert the filter descriptors and delegate to the generator. -/
def generate (store : ReportStore) (definition_id : String)
    (output_format : ReportFormat) (filters : List FilterSpec) (env : Env) :
    Option GeneratedReport × ReportStore :=
  match store.get_definition definition_id with
  | Option.none => (Option.none, store)
  | some definition =>
    let filter_objects := filters.map
      (fun f => ReportFilter.mk f.field f.operator f.value)
    let (report, store) :=
      ReportGenerator.generate store definition output_format filter_objects env
    (some report, store)

/-- `ReportManager.download_report`: the stored content by report id, absent
when the id is unknown or the stored report has no content. -/
def download_report (store : ReportStore) (report_id : String) : Option String :=
  match store.get_report report_id with
  | some report => report.content
  | Option.none => Option.none

end ReportManager

/-- A definition whose data-source callback raises. -/
def failingDefinition : ReportDefinition :=
  { id := "def-fail", name := "Failing", data_source := some (fun _ => Except.error "boom") }

/-- A definition whose data-source callback raises with an empty exception
message, as `raise ValueError()` does: `str(e)` is the empty string. -/
def emptyMessageFailingDefinition : ReportDefinition :=
  { id := "def-fail-empty", name := "FailingEmpty",
    data_source := some (fun _ => Except.error "") }

/-- A failed report with no content, as `generate` stores one. -/
def sampleFailedReport : GeneratedReport :=
  { id := "r1", definition_id := "def-fail", format := ReportFormat.json,
    status := ReportStatus.failed, error := some "boom" }

/-- A store holding only the failed report. -/
def storeWithFailedReport : ReportStore :=
  { reports := [("r1", sampleFailedReport)] }

/-- A two-row, one-column definition matching the round-trip scenario of the
spec. -/
def xDefinition : ReportDefinition :=
  { id := "def-x", name := "X Report",
    columns := [{ name := "X", field := "x" }] }

/-- The result entry `aggregate` appends for a field whose non-null value
set is empty: 0 for sum, avg and count, None for min and max, and nothing at
all for an unsupported function name. -/
def emptyAggResult (fa : String × String) : Option (String × DataProcessor.AggVal) :=
  if fa.2 = "sum" then some (fa.1, DataProcessor.AggVal.int 0)
  else if fa.2 = "avg" then some (fa.1, DataProcessor.AggVal.int 0)
  else if fa.2 = "min" then some (fa.1, DataProcessor.AggVal.none)
  else if fa.2 = "max" then some (fa.1, DataProcessor.AggVal.none)
  else if fa.2 = "count" then some (fa.1, DataProcessor.AggVal.int 0)
  else Option.none

/-- Ascending stable-sort invariant: no later element is strictly below an
earlier one (and every such comparison succeeds). -/
def ascOrdered {α : Type} (key : α → Value) (l : List α) : Prop :=
  l.Pairwise (fun x y => vlt (key y) (key x) = .ok false)

/-- Descending stable-sort invariant. -/
def descOrdered {α : Type} (key : α → Value) (l : List α) : Prop :=
  l.Pairwise (fun x y => vlt (key x) (key y) = .ok false)

/-- Claim C1 counterexample: a data-source callback that raises with an
empty exception message (Python `raise ValueError()`, whose `str` is the
empty string) produces a failed report whose recorded error message is the
empty string, refuting the claim that every generation failure yields a
non-empty error message. -/
theorem claim_C1_failure_captured_counterexample :
    (ReportGenerator.generate {} emptyMessageFailingDefinition ReportFormat.json []
        ⟨"uuid-1", "NOW", 5⟩).1.status = ReportStatus.failed ∧
    (ReportGenerator.generate {} emptyMessageFailingDefinition ReportFormat.json []
        ⟨"uuid-1", "NOW", 5⟩).1.error = some "" ∧
    (ReportGenerator.generate {} emptyMessageFailingDefinition ReportFormat.json []
        ⟨"uuid-1", "NOW", 5⟩).1.content = Option.none :=
  ⟨rfl, rfl, rfl⟩

/-- Claim C1 as amended: for every definition and output format, if any step
of generation fails (the data-source callback, filtering, sorting, or
formatting, i.e. the pipeline returns the failure message `e`), then
`ReportGenerator.generate` returns a report with status=failed, `error`
present and equal to that failure message (which may be empty, since the
code stores `str(e)` of the raised exception), and `content` absent.  No
exception propagates: `generate` is a total function into
`GeneratedReport × ReportStore`. -/
theorem claim_C1_failure_captured (store : ReportStore) (definition : ReportDefinition)
    (output_format : ReportFormat) (filters : List ReportFilter) (env : Env) (e : String)
    (hfail : ReportGenerator.runPipeline definition output_format filters env.now =
      .error e) :
    (ReportGenerator.generate store definition output_format filters env).1.status =
      ReportStatus.failed ∧
    (ReportGenerator.generate store definition output_format filters env).1.error = some e ∧
    (ReportGenerator.generate store definition output_format filters env).1.content =
      Option.none := by
  simp [ReportGenerator.generate, hfail]

theorem claim_C1_failure_captured_witness :
    (ReportGenerator.generate {} failingDefinition ReportFormat.json []
        ⟨"uuid-1", "NOW", 5⟩).1.status = ReportStatus.failed ∧
    (ReportGenerator.generate {} failingDefinition ReportFormat.json []
        ⟨"uuid-1", "NOW", 5⟩).1.error = some "boom" ∧
    (ReportGenerator.generate {} failingDefinition ReportFormat.json []
        ⟨"uuid-1", "NOW", 5⟩).1.content = Option.none :=
  claim_C1_failure_captured {} failingDefinition ReportFormat.json [] ⟨"uuid-1", "NOW", 5⟩
    "boom" rfl

/-- Claim C2: every `ReportGenerator.generate` call saves the final report to
the store exactly once (the reports dict is the old dict with exactly this
report set under its id; the other collections are untouched), and the
returned status is terminal: completed with content present or failed with
error present. -/
theorem claim_C2_always_saved_terminal (store : ReportStore) (definition : ReportDefinition)
    (output_format : ReportFormat) (filters : List ReportFilter) (env : Env) :
    (ReportGenerator.generate store definition output_format filters env).2.reports =
      dictSet store.reports
        (ReportGenerator.generate store definition output_format filters env).1.id
        (ReportGenerator.generate store definition output_format filters env).1 ∧
    (ReportGenerator.generate store definition output_format filters env).2.definitions =
      store.definitions ∧
    (ReportGenerator.generate store definition output_format filters env).2.schedules =
      store.schedules ∧
    (((ReportGenerator.generate store definition output_format filters env).1.status =
        ReportStatus.completed ∧
      (ReportGenerator.generate store definition output_format filters env).1.content.isSome) ∨
     ((ReportGenerator.generate store definition output_format filters env).1.status =
        ReportStatus.failed ∧
      (ReportGenerator.generate store definition output_format filters env).1.error.isSome)) := by
  cases h : ReportGenerator.runPipeline definition output_format filters env.now with
  | ok v =>
    obtain ⟨c, n⟩ := v
    simp [ReportGenerator.generate, h, ReportStore.save_report]
  | error e =>
    simp [ReportGenerator.generate, h, ReportStore.save_report]

/-- Claim C3: `ReportManager.generate` on a definition id that is not in the
store returns the absent result and the unchanged store: no report is
created, and definitions, reports and schedules are untouched. -/
theorem claim_C3_unknown_definition (store : ReportStore) (definition_id : String)
    (output_format : ReportFormat) (filters : List FilterSpec) (env : Env)
    (h : ReportStore.get_definition store definition_id = Option.none) :
    ReportManager.generate store definition_id output_format filters env =
      (Option.none, store) := by
  simp [ReportManager.generate, h]

theorem claim_C3_unknown_definition_witness :
    ReportManager.generate {} "missing-id" ReportFormat.json [] ⟨"uuid-1", "NOW", 5⟩ =
      (Option.none, ({} : ReportStore)) :=
  claim_C3_unknown_definition {} "missing-id" ReportFormat.json [] ⟨"uuid-1", "NOW", 5⟩ rfl

/-- Claim C10: `ReportManager.download_report` returns the absent result both
when the report id is unknown and when the stored report has no content (a
failed generation), so the two situations are indistinguishable from the
result alone. -/
theorem claim_C10_download_absent (store : ReportStore) (report_id : String) :
    (ReportStore.get_report store report_id = Option.none →
      ReportManager.download_report store report_id = Option.none) ∧
    (∀ r : GeneratedReport, ReportStore.get_report store report_id = some r →
      r.content = Option.none →
      ReportManager.download_report store report_id = Option.none) := by
  constructor
  · intro h
    simp [ReportManager.download_report, h]
  · intro r h hc
    simp [ReportManager.download_report, h, hc]

theorem claim_C10_download_absent_witness :
    ReportManager.download_report storeWithFailedReport "r1" = Option.none ∧
    ReportManager.download_report storeWithFailedReport "zzz" = Option.none :=
  ⟨(claim_C10_download_absent storeWithFailedReport "r1").2 sampleFailedReport rfl rfl,
   (claim_C10_download_absent storeWithFailedReport "zzz").1 rfl⟩

/-- Claim C8: `ReportFormatter.format` on any format outside JSON, CSV, HTML
and Markdown (the only such formats are PDF and Excel) produces exactly the
JSON renderer output, and the JSON renderer serializes an object whose keys
are report, generated_at, row_count, columns and data, where row_count is the
number of input rows and the data entry is the unchanged input rows. -/
theorem claim_C8_format_fallback_json (definition : ReportDefinition) (data : List Row)
    (now : String) (fmt : ReportFormat)
    (h : fmt = ReportFormat.pdf ∨ fmt = ReportFormat.excel) :
    ReportFormatter.format definition data fmt now =
      .ok (ReportFormatter._to_json definition data now) ∧
    ReportFormatter._to_json definition data now =
      dumps 0 (ReportFormatter.toJsonObj definition data now) ∧
    ReportFormatter.toJsonObj definition data now = JVal.obj
      [("report", .str definition.name),
       ("generated_at", .str now),
       ("row_count", .int data.length),
       ("columns", .arr (definition.columns.map (fun c => .str c.name))),
       ("data", .arr (data.map jOfRow))] := by
  rcases h with h | h <;> subst h <;>
    exact ⟨by simp [ReportFormatter.format], rfl, rfl⟩

theorem claim_C8_format_fallback_json_witness :
    ReportFormatter.format xDefinition [[("x", Value.int 1)], [("x", Value.int 2)]]
        ReportFormat.pdf "NOW" =
      .ok (ReportFormatter._to_json xDefinition
        [[("x", Value.int 1)], [("x", Value.int 2)]] "NOW") ∧
    ReportFormatter._to_json xDefinition [[("x", Value.int 1)], [("x", Value.int 2)]] "NOW" =
      dumps 0 (ReportFormatter.toJsonObj xDefinition
        [[("x", Value.int 1)], [("x", Value.int 2)]] "NOW") ∧
    ReportFormatter.toJsonObj xDefinition [[("x", Value.int 1)], [("x", Value.int 2)]] "NOW" =
      JVal.obj
        [("report", .str "X Report"),
         ("generated_at", .str "NOW"),
         ("row_count", .int 2),
         ("columns", .arr [.str "X"]),
         ("data", .arr [jOfRow [("x", Value.int 1)], jOfRow [("x", Value.int 2)]])] :=
  claim_C8_format_fallback_json xDefinition [[("x", Value.int 1)], [("x", Value.int 2)]]
    "NOW" ReportFormat.pdf (Or.inl rfl)

theorem aggStep_empty (data : List Row) (result : List (String × DataProcessor.AggVal))
    (fa : String × String) (h : DataProcessor.valuesOf data fa.1 = []) :
    DataProcessor.aggStep data result fa = .ok (result ++ (emptyAggResult fa).toList) := by
  simp only [DataProcessor.aggStep, h, emptyAggResult]
  split_ifs <;> simp [DataProcessor.sumE, pure, Except.pure, bind, Except.bind]

theorem aggregate_empty_go (data : List Row) (aggs : List (String × String)) :
    ∀ result : List (String × DataProcessor.AggVal),
    (∀ fa ∈ aggs, DataProcessor.valuesOf data fa.1 = []) →
    List.foldlM (DataProcessor.aggStep data) result aggs =
      .ok (result ++ aggs.filterMap emptyAggResult) := by
  induction aggs with
  | nil => intro result _; simp [pure, Except.pure]
  | cons fa aggs ih =>
    intro result h
    have hfa := h fa (by simp)
    have htl : ∀ x ∈ aggs, DataProcessor.valuesOf data x.1 = [] :=
      fun x hx => h x (List.mem_cons_of_mem _ hx)
    rw [List.foldlM_cons, aggStep_empty data result fa hfa]
    show List.foldlM (DataProcessor.aggStep data) (result ++ (emptyAggResult fa).toList) aggs = _
    rw [ih (result ++ (emptyAggResult fa).toList) htl]
    cases hf : emptyAggResult fa <;> simp [List.filterMap_cons, hf]

/-- Claim C6: for every aggregations mapping all of whose fields have an
empty non-null value set, `DataProcessor.aggregate` never raises and returns
0 for sum, 0 for avg, the absent default (None) for min and max, and 0 for
count, while entries with an unsupported function name produce no output key
at all. -/
theorem claim_C6_aggregate_empty_defaults (data : List Row)
    (aggs : List (String × String))
    (h : ∀ fa ∈ aggs, DataProcessor.valuesOf data fa.1 = []) :
    DataProcessor.aggregate data aggs = .ok (aggs.filterMap emptyAggResult) :=
  aggregate_empty_go data aggs [] h

theorem claim_C6_aggregate_empty_defaults_witness :
    DataProcessor.aggregate [[("y", Value.int 5)], [("x", Value.none)]]
        [("x", "sum"), ("x", "avg"), ("x", "min"), ("x", "max"), ("x", "count"),
         ("x", "median")] =
      .ok [("x", DataProcessor.AggVal.int 0), ("x", DataProcessor.AggVal.int 0),
           ("x", DataProcessor.AggVal.none), ("x", DataProcessor.AggVal.none),
           ("x", DataProcessor.AggVal.int 0)] :=
  claim_C6_aggregate_empty_defaults [[("y", Value.int 5)], [("x", Value.none)]]
    [("x", "sum"), ("x", "avg"), ("x", "min"), ("x", "max"), ("x", "count"),
     ("x", "median")]
    (by intro fa hfa; fin_cases hfa <;> rfl)

theorem startsWithChars_iff (n : List Char) : ∀ h : List Char,
    startsWithChars n h = true ↔ ∃ t, h = n ++ t := by
  induction n with
  | nil => intro h; simp [startsWithChars]
  | cons a as ih =>
    intro h
    cases h with
    | nil => simp [startsWithChars]
    | cons b bs =>
      simp only [startsWithChars, Bool.and_eq_true, beq_iff_eq, ih, List.cons_append,
        List.cons.injEq]
      constructor
      · rintro ⟨rfl, t, rfl⟩
        exact ⟨t, rfl, rfl⟩
      · rintro ⟨t, rfl, rfl⟩
        exact ⟨rfl, t, rfl⟩

theorem subChars_iff (n : List Char) : ∀ h : List Char,
    subChars n h = true ↔ ∃ pre post, h = pre ++ n ++ post := by
  intro h
  induction h with
  | nil =>
    simp only [subChars, List.isEmpty_iff]
    constructor
    · rintro rfl
      exact ⟨[], [], rfl⟩
    · rintro ⟨pre, post, hp⟩
      rcases List.append_eq_nil.mp (List.append_eq_nil.mp hp.symm).1 with ⟨_, h2⟩
      exact h2
  | cons c t ih =>
    simp only [subChars, Bool.or_eq_true, startsWithChars_iff, ih]
    constructor
    · rintro (⟨t2, ht⟩ | ⟨pre, post, rfl⟩)
      · exact ⟨[], t2, by simpa using ht⟩
      · exact ⟨c :: pre, post, by simp⟩
    · rintro ⟨pre, post, hp⟩
      cases pre with
      | nil => exact Or.inl ⟨post, by simpa using hp⟩
      | cons c2 pre2 =>
        simp only [List.cons_append, List.cons.injEq] at hp
        exact Or.inr ⟨pre2, post, hp.2⟩

/-- Claim C7: the filter predicate for operator contains holds exactly when
the filter value is a substring of the stringified row value; for operator in
it holds exactly when the row value is a member (under Python equality) of
the filter value; and every operator outside eq, ne, gt, lt, gte, lte,
contains, in passes every row through. -/
theorem claim_C7_filter_operators :
    (∀ (v : Value) (s : String),
      DataProcessor._apply_filter v "contains" (.str s) = .ok (strContains (pystr v) s) ∧
      (strContains (pystr v) s = true ↔
        ∃ pre post, (pystr v).toList = pre ++ s.toList ++ post)) ∧
    (∀ (v : Value) (vs : List Value),
      DataProcessor._apply_filter v "in" (.list vs) = .ok (vs.any (fun e => veq e v)) ∧
      (vs.any (fun e => veq e v) = true ↔ ∃ e ∈ vs, veq e v = true)) ∧
    (∀ (v fv : Value) (op : String),
      op ∉ ["eq", "ne", "gt", "lt", "gte", "lte", "contains", "in"] →
      DataProcessor._apply_filter v op fv = .ok true) := by
  refine ⟨fun v s => ⟨by simp [DataProcessor._apply_filter], ?_⟩,
    fun v vs => ⟨by simp [DataProcessor._apply_filter], by simp [List.any_eq_true]⟩,
    fun v fv op hop => ?_⟩
  · simpa [strContains] using subChars_iff s.toList (pystr v).toList
  · simp only [List.mem_cons, List.not_mem_nil, or_false, not_or] at hop
    obtain ⟨h1, h2, h3, h4, h5, h6, h7, h8⟩ := hop
    simp [DataProcessor._apply_filter, h1, h2, h3, h4, h5, h6, h7, h8]

theorem claim_C7_filter_operators_witness :
    DataProcessor._apply_filter (.str "hello") "contains" (.str "ell") = .ok true ∧
    DataProcessor._apply_filter (.int 1) "in" (.list [.int 2, .int 1]) = .ok true ∧
    DataProcessor._apply_filter (.int 1) "between" (.int 5) = .ok true := by
  refine ⟨?_, ?_, ?_⟩
  · rw [(claim_C7_filter_operators.1 (.str "hello") "ell").1]
    rfl
  · rw [(claim_C7_filter_operators.2.1 (.int 1) [.int 2, .int 1]).1]
    rfl
  · exact claim_C7_filter_operators.2.2 (.int 1) (.int 5) "between" (by decide)

theorem filterPass_ok_sublist {p : Row → Except String Bool} :
    ∀ {l out : List Row}, DataProcessor.filterPass p l = .ok out → out.Sublist l := by
  intro l
  induction l with
  | nil =>
    intro out h
    simp only [DataProcessor.filterPass, Except.ok.injEq] at h
    subst h
    exact List.Sublist.refl []
  | cons r rs ih =>
    intro out h
    unfold DataProcessor.filterPass at h
    cases hp : p r with
    | error e => rw [hp] at h; exact absurd h (by simp)
    | ok b =>
      rw [hp] at h
      cases hrest : DataProcessor.filterPass p rs with
      | error e => rw [hrest] at h; exact absurd h (by simp)
      | ok rest =>
        rw [hrest] at h
        simp only [Except.ok.injEq] at h
        subst h
        cases b with
        | true => exact (ih hrest).cons₂ r
        | false => exact (ih hrest).cons r

theorem filterPass_ok_mem {p : Row → Except String Bool} :
    ∀ {l out : List Row}, DataProcessor.filterPass p l = .ok out →
    ∀ r ∈ out, p r = .ok true := by
  intro l
  induction l with
  | nil =>
    intro out h
    simp only [DataProcessor.filterPass, Except.ok.injEq] at h
    subst h
    simp
  | cons r rs ih =>
    intro out h
    unfold DataProcessor.filterPass at h
    cases hp : p r with
    | error e => rw [hp] at h; exact absurd h (by simp)
    | ok b =>
      rw [hp] at h
      cases hrest : DataProcessor.filterPass p rs with
      | error e => rw [hrest] at h; exact absurd h (by simp)
      | ok rest =>
        rw [hrest] at h
        simp only [Except.ok.injEq] at h
        subst h
        cases b with
        | true =>
          intro x hx
          rcases List.mem_cons.mp hx with rfl | hx
          · exact hp
          · exact ih hrest x hx
        | false => exact fun x hx => ih hrest x hx

theorem filterPass_const {p : Row → Except String Bool} (b : Bool) :
    ∀ {l : List Row}, (∀ r ∈ l, p r = .ok b) →
    DataProcessor.filterPass p l = .ok (if b then l else []) := by
  intro l
  induction l with
  | nil => intro _; simp [DataProcessor.filterPass]
  | cons r rs ih =>
    intro h
    unfold DataProcessor.filterPass
    rw [h r (by simp), ih (fun x hx => h x (List.mem_cons_of_mem _ hx))]
    cases b <;> simp

theorem filterPass_all_true {p : Row → Except String Bool} {l : List Row}
    (h : ∀ r ∈ l, p r = .ok true) : DataProcessor.filterPass p l = .ok l := by
  simpa using filterPass_const true h

theorem filter_ok_strong (fs : List ReportFilter) : ∀ rows out : List Row,
    DataProcessor.filter rows fs = .ok out →
    out.Sublist rows ∧ DataProcessor.filter out fs = .ok out := by
  induction fs with
  | nil =>
    intro rows out h
    simp only [DataProcessor.filter, List.foldlM_nil] at h
    replace h : rows = out := by simpa [pure, Except.pure] using h
    subst h
    exact ⟨List.Sublist.refl rows, by simp [DataProcessor.filter, pure, Except.pure]⟩
  | cons f fs ih =>
    intro rows out h
    unfold DataProcessor.filter at h
    rw [List.foldlM_cons] at h
    cases hmid : DataProcessor.filterPass
        (fun row => DataProcessor._apply_filter (pyGet row f.field) f.operator f.value)
        rows with
    | error e => rw [hmid] at h; exact absurd h (by simp [bind, Except.bind])
    | ok mid =>
      rw [hmid] at h
      simp only [bind, Except.bind] at h
      obtain ⟨hsub, hidem⟩ := ih mid out h
      have hall : ∀ r ∈ out,
          DataProcessor._apply_filter (pyGet r f.field) f.operator f.value = .ok true :=
        fun r hr => filterPass_ok_mem hmid r (hsub.mem hr)
      refine ⟨hsub.trans (filterPass_ok_sublist hmid), ?_⟩
      unfold DataProcessor.filter
      rw [List.foldlM_cons, filterPass_all_true hall]
      simpa [bind, Except.bind] using hidem

/-- Claim C4: whenever `DataProcessor.filter` succeeds, its output is a
subsequence of the input (rows survive in their original relative order), and
reapplying the same filter list to the output succeeds and returns the output
unchanged. -/
theorem claim_C4_filter_sublist_idempotent (rows : List Row) (fs : List ReportFilter)
    (out : List Row) (h : DataProcessor.filter rows fs = .ok out) :
    out.Sublist rows ∧ DataProcessor.filter out fs = .ok out :=
  filter_ok_strong fs rows out h

theorem claim_C4_filter_sublist_idempotent_witness :
    ([[("a", Value.int 3)]] : List Row).Sublist
      [[("a", Value.int 3)], [("a", Value.int 1)]] ∧
    DataProcessor.filter [[("a", Value.int 3)]]
      [⟨"a", "gte", Value.int 2⟩] = .ok [[("a", Value.int 3)]] :=
  claim_C4_filter_sublist_idempotent [[("a", Value.int 3)], [("a", Value.int 1)]]
    [⟨"a", "gte", Value.int 2⟩] [[("a", Value.int 3)]] rfl

/-- Claim C9: `DataProcessor.filter` looks rows up with a defaulting get, so
a row lacking the field is filtered as the null value rather than raising: an
eq filter with a null value keeps every such row, a contains filter tests its
value for substring membership in the text None, and every operator behaves
on such rows exactly as it behaves on the null value. -/
theorem claim_C9_missing_field_as_null (rows : List Row) (fld : String) (s : String)
    (h : ∀ r ∈ rows, dictGet r fld = Option.none) :
    DataProcessor.filter rows [⟨fld, "eq", Value.none⟩] = .ok rows ∧
    DataProcessor.filter rows [⟨fld, "contains", .str s⟩] =
      .ok (if strContains "None" s then rows else []) ∧
    (∀ r ∈ rows, ∀ (op : String) (fv : Value),
      DataProcessor._apply_filter (pyGet r fld) op fv =
        DataProcessor._apply_filter Value.none op fv) := by
  have hnull : ∀ r ∈ rows, pyGet r fld = Value.none := by
    intro r hr
    simp [pyGet, h r hr]
  refine ⟨?_, ?_, fun r hr op fv => by rw [hnull r hr]⟩
  · unfold DataProcessor.filter
    rw [List.foldlM_cons]
    rw [filterPass_const true (by intro r hr; rw [hnull r hr]; rfl)]
    simp [bind, Except.bind, pure, Except.pure]
  · unfold DataProcessor.filter
    rw [List.foldlM_cons]
    rw [filterPass_const (strContains "None" s) (by intro r hr; rw [hnull r hr]; rfl)]
    cases hb : strContains "None" s <;>
      simp [bind, Except.bind, pure, Except.pure, hb]

theorem claim_C9_missing_field_as_null_witness :
    DataProcessor.filter [[("b", Value.int 1)], []] [⟨"a", "eq", Value.none⟩] =
      .ok [[("b", Value.int 1)], []] ∧
    DataProcessor.filter [[("b", Value.int 1)], []] [⟨"a", "contains", .str "on"⟩] =
      .ok (if strContains "None" "on" then [[("b", Value.int 1)], []] else []) ∧
    (∀ r ∈ ([[("b", Value.int 1)], []] : List Row), ∀ (op : String) (fv : Value),
      DataProcessor._apply_filter (pyGet r "a") op fv =
        DataProcessor._apply_filter Value.none op fv) :=
  claim_C9_missing_field_as_null [[("b", Value.int 1)], []] "a" "on"
    (by intro r hr; fin_cases hr <;> rfl)

theorem charsLt_irrefl : ∀ l : List Char, charsLt l l = false := by
  intro l
  induction l with
  | nil => rfl
  | cons a as ih => simp [charsLt, ih]

theorem charsLt_asymm : ∀ l1 l2 : List Char, charsLt l1 l2 = true → charsLt l2 l1 = false := by
  intro l1
  induction l1 with
  | nil => intro l2 h; cases l2 <;> simp_all [charsLt]
  | cons a as ih =>
    intro l2 h
    cases l2 with
    | nil => simp_all [charsLt]
    | cons b bs =>
      simp only [charsLt, Bool.or_eq_true, Bool.and_eq_true, decide_eq_true_eq,
        beq_iff_eq] at h ⊢
      rcases h with h | ⟨rfl, h⟩
      · simp [lt_asymm h, (ne_of_gt h : b ≠ a)]
      · simp [lt_irrefl, ih bs h]

theorem charsLt_trans : ∀ l1 l2 l3 : List Char,
    charsLt l1 l2 = true → charsLt l2 l3 = true → charsLt l1 l3 = true := by
  intro l1
  induction l1 with
  | nil => intro l2 l3 h1 h2; cases l2 <;> cases l3 <;> simp_all [charsLt]
  | cons a as ih =>
    intro l2 l3 h1 h2
    cases l2 with
    | nil => simp_all [charsLt]
    | cons b bs =>
      cases l3 with
      | nil => simp_all [charsLt]
      | cons c cs =>
        simp only [charsLt, Bool.or_eq_true, Bool.and_eq_true, decide_eq_true_eq,
          beq_iff_eq] at h1 h2 ⊢
        rcases h1 with h1 | ⟨rfl, h1⟩ <;> rcases h2 with h2 | ⟨rfl, h2⟩
        · exact Or.inl (lt_trans h1 h2)
        · exact Or.inl h1
        · exact Or.inl h2
        · exact Or.inr ⟨rfl, ih bs cs h1 h2⟩

theorem charsLt_total : ∀ l1 l2 : List Char, charsLt l1 l2 = false →
    l1 = l2 ∨ charsLt l2 l1 = true := by
  intro l1
  induction l1 with
  | nil => intro l2 h; cases l2 <;> simp_all [charsLt]
  | cons a as ih =>
    intro l2 h
    cases l2 with
    | nil => simp [charsLt]
    | cons b bs =>
      simp only [charsLt, Bool.or_eq_true, Bool.and_eq_true, decide_eq_true_eq,
        beq_iff_eq, Bool.or_eq_false_iff, Bool.and_eq_false_iff] at h ⊢
      obtain ⟨hab, hrest⟩ := h
      by_cases hab2 : a = b
      · subst hab2
        rcases hrest with hne | hlt
        · simp_all
        · rcases ih bs (by simpa using hlt) with rfl | h
          · exact Or.inl rfl
          · exact Or.inr (Or.inr ⟨rfl, h⟩)
      · have hba : b < a := by
          rcases lt_or_gt_of_ne hab2 with h | h
          · exact absurd h (by simpa using hab)
          · exact h
        exact Or.inr (Or.inl hba)

mutual

theorem veq_symm : ∀ a b : Value, veq a b = veq b a
  | .list as, .list bs => by
    simp only [veq]
    exact veqList_symm as bs
  | .list _, .none => by simp [veq, Value.toNum?]
  | .list _, .bool _ => by simp [veq, Value.toNum?]
  | .list _, .int _ => by simp [veq, Value.toNum?]
  | .list _, .str _ => by simp [veq, Value.toNum?]
  | .none, b => by cases b <;> simp [veq, Value.toNum?]
  | .bool x, b => by cases b <;> simp [veq, Value.toNum?, eq_comm]
  | .int x, b => by cases b <;> simp [veq, Value.toNum?, eq_comm]
  | .str s, b => by cases b <;> simp [veq, Value.toNum?, eq_comm]

theorem veqList_symm : ∀ as bs : List Value, veqList as bs = veqList bs as
  | [], [] => rfl
  | [], _ :: _ => rfl
  | _ :: _, [] => rfl
  | a :: as, b :: bs => by
    simp only [veqList]
    rw [veq_symm a b, veqList_symm as bs]

end

mutual

theorem veq_trans : ∀ a b c : Value, veq a b = true → veq b c = true → veq a c = true
  | .list as, .list bs, .list cs => fun h1 h2 => by
    simp only [veq] at h1 h2 ⊢
    exact veqList_trans as bs cs h1 h2
  | .none, b, c => fun h1 h2 => by
    cases b <;> cases c <;> simp_all [veq, Value.toNum?]
  | .bool _, b, c => fun h1 h2 => by
    cases b <;> cases c <;> simp_all [veq, Value.toNum?]
  | .int _, b, c => fun h1 h2 => by
    cases b <;> cases c <;> simp_all [veq, Value.toNum?]
  | .str _, b, c => fun h1 h2 => by
    cases b <;> cases c <;> simp_all [veq, Value.toNum?]
  | .list _, .none, _ => fun h1 _ => by simp [veq, Value.toNum?] at h1
  | .list _, .bool _, _ => fun h1 _ => by simp [veq, Value.toNum?] at h1
  | .list _, .int _, _ => fun h1 _ => by simp [veq, Value.toNum?] at h1
  | .list _, .str _, _ => fun h1 _ => by simp [veq, Value.toNum?] at h1
  | .list _, .list _, .none => fun _ h2 => by simp [veq, Value.toNum?] at h2
  | .list _, .list _, .bool _ => fun _ h2 => by simp [veq, Value.toNum?] at h2
  | .list _, .list _, .int _ => fun _ h2 => by simp [veq, Value.toNum?] at h2
  | .list _, .list _, .str _ => fun _ h2 => by simp [veq, Value.toNum?] at h2

theorem veqList_trans : ∀ as bs cs : List Value,
    veqList as bs = true → veqList bs cs = true → veqList as cs = true
  | [], [], [] => fun _ _ => rfl
  | [], [], _ :: _ => fun _ h2 => by simp [veqList] at h2
  | [], _ :: _, _ => fun h1 _ => by simp [veqList] at h1
  | _ :: _, [], _ => fun h1 _ => by simp [veqList] at h1
  | _ :: _, _ :: _, [] => fun _ h2 => by simp [veqList] at h2
  | a :: as, b :: bs, c :: cs => fun h1 h2 => by
    simp only [veqList, Bool.and_eq_true] at h1 h2 ⊢
    exact ⟨veq_trans a b c h1.1 h2.1, veqList_trans as bs cs h1.2 h2.2⟩

end

theorem veq_congr_left (a a2 b : Value) (h : veq a a2 = true) : veq a b = veq a2 b := by
  have h2 : veq a2 a = true := by rw [veq_symm a2 a]; exact h
  cases hab : veq a b with
  | true => exact (veq_trans a2 a b h2 hab).symm
  | false =>
    cases hb : veq a2 b with
    | true => exact absurd (veq_trans a a2 b h hb) (by simp [hab])
    | false => rfl

theorem veq_congr_right (a b b2 : Value) (h : veq b b2 = true) : veq a b = veq a b2 := by
  rw [veq_symm a b, veq_symm a b2]
  exact veq_congr_left b b2 a h

mutual

theorem veq_vlt : ∀ a b : Value, veq a b = true → vlt a b ≠ .ok true
  | .list as, .list bs => fun h => by
    simp only [veq] at h
    simp only [vlt]
    simp [veqList_vlt as bs h]
  | .none, b => fun h => by cases b <;> simp_all [veq, vlt, Value.toNum?]
  | .bool x, b => fun h => by
    cases b <;> simp_all [veq, vlt, Value.toNum?]
  | .int x, b => fun h => by
    cases b <;> simp_all [veq, vlt, Value.toNum?]
  | .str s, .str t => fun h => by
    simp only [veq, beq_iff_eq] at h
    subst h
    simp [vlt, charsLt_irrefl]
  | .str _, .none => fun h => by simp [veq, Value.toNum?] at h
  | .str _, .bool _ => fun h => by simp [veq, Value.toNum?] at h
  | .str _, .int _ => fun h => by simp [veq, Value.toNum?] at h
  | .str _, .list _ => fun h => by simp [veq, Value.toNum?] at h
  | .list _, .none => fun h => by simp [veq, Value.toNum?] at h
  | .list _, .bool _ => fun h => by simp [veq, Value.toNum?] at h
  | .list _, .int _ => fun h => by simp [veq, Value.toNum?] at h
  | .list _, .str _ => fun h => by simp [veq, Value.toNum?] at h

theorem veqList_vlt : ∀ as bs : List Value, veqList as bs = true → vltList as bs = .ok false
  | [], [] => fun _ => rfl
  | [], _ :: _ => fun h => by simp [veqList] at h
  | _ :: _, [] => fun h => by simp [veqList] at h
  | a :: as, b :: bs => fun h => by
    simp only [veqList, Bool.and_eq_true] at h
    simp only [vltList, h.1, if_true]
    exact veqList_vlt as bs h.2

end

mutual

theorem vlt_congr_left : ∀ a a2 b : Value, veq a a2 = true → vlt a b = vlt a2 b
  | .list as, .list as2, .list bs => fun h => by
    simp only [veq] at h
    simp only [vlt]
    exact vltList_congr_left as as2 bs h
  | .list as, .list as2, .none => fun _ => rfl
  | .list as, .list as2, .bool _ => fun _ => rfl
  | .list as, .list as2, .int _ => fun _ => rfl
  | .list as, .list as2, .str _ => fun _ => rfl
  | .none, a2, b => fun h => by
    cases a2 <;> simp_all [veq, Value.toNum?]
  | .bool x, a2, b => fun h => by
    cases a2 <;> cases b <;> simp_all [veq, vlt, Value.toNum?]
  | .int x, a2, b => fun h => by
    cases a2 <;> cases b <;> simp_all [veq, vlt, Value.toNum?]
  | .str s, .str t, b => fun h => by
    have hst : s = t := by simpa [veq] using h
    subst hst
    rfl
  | .str _, .none, _ => fun h => by simp [veq, Value.toNum?] at h
  | .str _, .bool _, _ => fun h => by simp [veq, Value.toNum?] at h
  | .str _, .int _, _ => fun h => by simp [veq, Value.toNum?] at h
  | .str _, .list _, _ => fun h => by simp [veq, Value.toNum?] at h
  | .list _, .none, _ => fun h => by simp [veq, Value.toNum?] at h
  | .list _, .bool _, _ => fun h => by simp [veq, Value.toNum?] at h
  | .list _, .int _, _ => fun h => by simp [veq, Value.toNum?] at h
  | .list _, .str _, _ => fun h => by simp [veq, Value.toNum?] at h
termination_by a a2 b => sizeOf a + sizeOf a2 + sizeOf b

theorem vltList_congr_left : ∀ as as2 bs : List Value,
    veqList as as2 = true → vltList as bs = vltList as2 bs
  | [], [], _ => fun _ => rfl
  | [], _ :: _, _ => fun h => by simp [veqList] at h
  | _ :: _, [], _ => fun h => by simp [veqList] at h
  | _ :: _, _ :: _, [] => fun _ => rfl
  | a :: as, a2 :: as2, b :: bs => fun h => by
    simp only [veqList, Bool.and_eq_true] at h
    obtain ⟨h1, h2⟩ := h
    simp only [vltList, veq_congr_left a a2 b h1]
    cases hc : veq a2 b with
    | true => simp only [if_true]; exact vltList_congr_left as as2 bs h2
    | false => simp only [Bool.false_eq_true, if_false]; exact vlt_congr_left a a2 b h1
termination_by as as2 bs => sizeOf as + sizeOf as2 + sizeOf bs

end

mutual

theorem vlt_congr_right : ∀ a b b2 : Value, veq b b2 = true → vlt a b = vlt a b2
  | .list as, .list bs, .list bs2 => fun h => by
    simp only [veq] at h
    simp only [vlt]
    exact vltList_congr_right as bs bs2 h
  | .none, .list _, .list _ => fun _ => rfl
  | .bool _, .list _, .list _ => fun _ => rfl
  | .int _, .list _, .list _ => fun _ => rfl
  | .str _, .list _, .list _ => fun _ => rfl
  | a, .none, b2 => fun h => by
    cases b2 <;> simp_all [veq, Value.toNum?]
  | a, .bool x, b2 => fun h => by
    cases a <;> cases b2 <;> simp_all [veq, vlt, Value.toNum?]
  | a, .int x, b2 => fun h => by
    cases a <;> cases b2 <;> simp_all [veq, vlt, Value.toNum?]
  | a, .str s, .str t => fun h => by
    have hst : s = t := by simpa [veq] using h
    subst hst
    rfl
  | _, .str _, .none => fun h => by simp [veq, Value.toNum?] at h
  | _, .str _, .bool _ => fun h => by simp [veq, Value.toNum?] at h
  | _, .str _, .int _ => fun h => by simp [veq, Value.toNum?] at h
  | _, .str _, .list _ => fun h => by simp [veq, Value.toNum?] at h
  | _, .list _, .none => fun h => by simp [veq, Value.toNum?] at h
  | _, .list _, .bool _ => fun h => by simp [veq, Value.toNum?] at h
  | _, .list _, .int _ => fun h => by simp [veq, Value.toNum?] at h
  | _, .list _, .str _ => fun h => by simp [veq, Value.toNum?] at h
termination_by a b b2 => sizeOf a + sizeOf b + sizeOf b2

theorem vltList_congr_right : ∀ as bs bs2 : List Value,
    veqList bs bs2 = true → vltList as bs = vltList as bs2
  | _, [], [] => fun _ => rfl
  | _, [], _ :: _ => fun h => by simp [veqList] at h
  | _, _ :: _, [] => fun h => by simp [veqList] at h
  | [], _ :: _, _ :: _ => fun _ => rfl
  | a :: as, b :: bs, b2 :: bs2 => fun h => by
    simp only [veqList, Bool.and_eq_true] at h
    obtain ⟨h1, h2⟩ := h
    simp only [vltList, veq_congr_right a b b2 h1]
    cases hc : veq a b2 with
    | true => simp only [if_true]; exact vltList_congr_right as bs bs2 h2
    | false => simp only [Bool.false_eq_true, if_false]; exact vlt_congr_right a b b2 h1
termination_by as bs bs2 => sizeOf as + sizeOf bs + sizeOf bs2

end

mutual

theorem vlt_asymm : ∀ a b : Value, vlt a b = .ok true → vlt b a = .ok false
  | .list as, .list bs => fun h => by
    simp only [vlt] at h ⊢
    exact vltList_asymm as bs h
  | .str s, .str t => fun h => by
    simp only [vlt, Except.ok.injEq] at h ⊢
    exact charsLt_asymm _ _ h
  | .none, b => fun h => by cases b <;> simp_all [vlt, Value.toNum?]
  | .bool x, b => fun h => by
    cases b <;> simp_all [vlt, Value.toNum?] <;> omega
  | .int x, b => fun h => by
    cases b <;> simp_all [vlt, Value.toNum?] <;> omega
  | .str _, .none => fun h => by simp [vlt, Value.toNum?] at h
  | .str _, .bool _ => fun h => by simp [vlt, Value.toNum?] at h
  | .str _, .int _ => fun h => by simp [vlt, Value.toNum?] at h
  | .str _, .list _ => fun h => by simp [vlt, Value.toNum?] at h
  | .list _, .none => fun h => by simp [vlt, Value.toNum?] at h
  | .list _, .bool _ => fun h => by simp [vlt, Value.toNum?] at h
  | .list _, .int _ => fun h => by simp [vlt, Value.toNum?] at h
  | .list _, .str _ => fun h => by simp [vlt, Value.toNum?] at h

theorem vltList_asymm : ∀ as bs : List Value,
    vltList as bs = .ok true → vltList bs as = .ok false
  | [], [] => fun h => by simp [vltList] at h
  | [], _ :: _ => fun _ => rfl
  | _ :: _, [] => fun h => by simp [vltList] at h
  | a :: as, b :: bs => fun h => by
    cases hab : veq a b with
    | true =>
      have hba : veq b a = true := by rw [veq_symm b a]; exact hab
      rw [vltList, if_pos hab] at h
      rw [vltList, if_pos hba]
      exact vltList_asymm as bs h
    | false =>
      have hba : veq b a = false := by rw [veq_symm b a]; exact hab
      rw [vltList, if_neg (by simp [hab])] at h
      rw [vltList, if_neg (by simp [hba])]
      exact vlt_asymm a b h

end

mutual

theorem vlt_total : ∀ a b : Value, vlt a b = .ok false →
    veq a b = true ∨ vlt b a = .ok true
  | .list as, .list bs => fun h => by
    simp only [vlt, veq] at h ⊢
    exact vltList_total as bs h
  | .str s, .str t => fun h => by
    simp only [vlt, veq, Except.ok.injEq, beq_iff_eq] at h ⊢
    rcases charsLt_total _ _ h with heq | hlt
    · left
      cases s
      cases t
      exact congrArg String.mk heq
    · right
      exact hlt
  | .none, b => fun h => by cases b <;> simp_all [vlt, Value.toNum?]
  | .bool x, b => fun h => by
    cases b <;> simp_all [vlt, veq, Value.toNum?] <;> omega
  | .int x, b => fun h => by
    cases b <;> simp_all [vlt, veq, Value.toNum?] <;> omega
  | .str _, .none => fun h => by simp [vlt, Value.toNum?] at h
  | .str _, .bool _ => fun h => by simp [vlt, Value.toNum?] at h
  | .str _, .int _ => fun h => by simp [vlt, Value.toNum?] at h
  | .str _, .list _ => fun h => by simp [vlt, Value.toNum?] at h
  | .list _, .none => fun h => by simp [vlt, Value.toNum?] at h
  | .list _, .bool _ => fun h => by simp [vlt, Value.toNum?] at h
  | .list _, .int _ => fun h => by simp [vlt, Value.toNum?] at h
  | .list _, .str _ => fun h => by simp [vlt, Value.toNum?] at h

theorem vltList_total : ∀ as bs : List Value, vltList as bs = .ok false →
    veqList as bs = true ∨ vltList bs as = .ok true
  | [], [] => fun _ => Or.inl rfl
  | [], _ :: _ => fun h => by simp [vltList] at h
  | _ :: _, [] => fun _ => Or.inr rfl
  | a :: as, b :: bs => fun h => by
    cases hab : veq a b with
    | true =>
      have hba : veq b a = true := by rw [veq_symm b a]; exact hab
      rw [vltList, if_pos hab] at h
      rcases vltList_total as bs h with heq | hlt
      · exact Or.inl (by simp [veqList, hab, heq])
      · exact Or.inr (by rw [vltList, if_pos hba]; exact hlt)
    | false =>
      have hba : veq b a = false := by rw [veq_symm b a]; exact hab
      rw [vltList, if_neg (by simp [hab])] at h
      rcases vlt_total a b h with heq | hlt
      · exact absurd heq (by simp [hab])
      · exact Or.inr (by rw [vltList, if_neg (by simp [hba])]; exact hlt)

end

mutual

theorem vlt_trans : ∀ a b c : Value,
    vlt a b = .ok true → vlt b c = .ok true → vlt a c = .ok true
  | .list as, .list bs, .list cs => fun h1 h2 => by
    simp only [vlt] at h1 h2 ⊢
    exact vltList_trans as bs cs h1 h2
  | .str s, .str t, .str u => fun h1 h2 => by
    simp only [vlt, Except.ok.injEq] at h1 h2 ⊢
    exact charsLt_trans _ _ _ h1 h2
  | .none, b, c => fun h1 _ => by cases b <;> simp_all [vlt, Value.toNum?]
  | .bool _, b, c => fun h1 h2 => by
    cases b <;> cases c <;> simp_all [vlt, Value.toNum?] <;> omega
  | .int _, b, c => fun h1 h2 => by
    cases b <;> cases c <;> simp_all [vlt, Value.toNum?] <;> omega
  | .str _, .none, _ => fun h1 _ => by simp [vlt, Value.toNum?] at h1
  | .str _, .bool _, _ => fun h1 _ => by simp [vlt, Value.toNum?] at h1
  | .str _, .int _, _ => fun h1 _ => by simp [vlt, Value.toNum?] at h1
  | .str _, .list _, _ => fun h1 _ => by simp [vlt, Value.toNum?] at h1
  | .str _, .str _, .none => fun _ h2 => by simp [vlt, Value.toNum?] at h2
  | .str _, .str _, .bool _ => fun _ h2 => by simp [vlt, Value.toNum?] at h2
  | .str _, .str _, .int _ => fun _ h2 => by simp [vlt, Value.toNum?] at h2
  | .str _, .str _, .list _ => fun _ h2 => by simp [vlt, Value.toNum?] at h2
  | .list _, .none, _ => fun h1 _ => by simp [vlt, Value.toNum?] at h1
  | .list _, .bool _, _ => fun h1 _ => by simp [vlt, Value.toNum?] at h1
  | .list _, .int _, _ => fun h1 _ => by simp [vlt, Value.toNum?] at h1
  | .list _, .str _, _ => fun h1 _ => by simp [vlt, Value.toNum?] at h1
  | .list _, .list _, .none => fun _ h2 => by simp [vlt, Value.toNum?] at h2
  | .list _, .list _, .bool _ => fun _ h2 => by simp [vlt, Value.toNum?] at h2
  | .list _, .list _, .int _ => fun _ h2 => by simp [vlt, Value.toNum?] at h2
  | .list _, .list _, .str _ => fun _ h2 => by simp [vlt, Value.toNum?] at h2

theorem vltList_trans : ∀ as bs cs : List Value,
    vltList as bs = .ok true → vltList bs cs = .ok true → vltList as cs = .ok true
  | [], [], _ => fun h1 _ => by simp [vltList] at h1
  | [], _ :: _, [] => fun _ h2 => by simp [vltList] at h2
  | [], _ :: _, _ :: _ => fun _ _ => rfl
  | _ :: _, [], _ => fun h1 _ => by simp [vltList] at h1
  | _ :: _, _ :: _, [] => fun _ h2 => by simp [vltList] at h2
  | a :: as, b :: bs, c :: cs => fun h1 h2 => by
    cases hab : veq a b with
    | true =>
      rw [vltList, if_pos hab] at h1
      cases hbc : veq b c with
      | true =>
        rw [vltList, if_pos hbc] at h2
        have hac : veq a c = true := veq_trans a b c hab hbc
        rw [vltList, if_pos hac]
        exact vltList_trans as bs cs h1 h2
      | false =>
        rw [vltList, if_neg (by simp [hbc])] at h2
        have hlt : vlt a c = .ok true := by
          rw [vlt_congr_left a b c hab]
          exact h2
        have hac : veq a c = false := by
          cases hx : veq a c with
          | false => rfl
          | true => exact absurd hlt (veq_vlt a c hx)
        rw [vltList, if_neg (by simp [hac])]
        exact hlt
    | false =>
      rw [vltList, if_neg (by simp [hab])] at h1
      cases hbc : veq b c with
      | true =>
        rw [vltList, if_pos hbc] at h2
        have hlt : vlt a c = .ok true := by
          rw [← vlt_congr_right a b c hbc]
          exact h1
        have hac : veq a c = false := by
          cases hx : veq a c with
          | false => rfl
          | true => exact absurd hlt (veq_vlt a c hx)
        rw [vltList, if_neg (by simp [hac])]
        exact hlt
      | false =>
        rw [vltList, if_neg (by simp [hbc])] at h2
        have hlt : vlt a c = .ok true := vlt_trans a b c h1 h2
        have hac : veq a c = false := by
          cases hx : veq a c with
          | false => rfl
          | true => exact absurd hlt (veq_vlt a c hx)
        rw [vltList, if_neg (by simp [hac])]
        exact hlt

end


theorem insertAsc_perm {α : Type} (key : α → Value) : ∀ (acc : List α) (r : α)
    (out : List α), DataProcessor.insertAsc key acc r = .ok out → out.Perm (r :: acc) := by
  intro acc
  induction acc with
  | nil =>
    intro r out h
    simp only [DataProcessor.insertAsc, Except.ok.injEq] at h
    subst h
    exact List.Perm.refl _
  | cons x xs ih =>
    intro r out h
    unfold DataProcessor.insertAsc at h
    cases hc : vlt (key r) (key x) with
    | error e => rw [hc] at h; exact absurd h (by simp)
    | ok b =>
      rw [hc] at h
      cases b with
      | true =>
        simp only [Except.ok.injEq] at h
        subst h
        exact List.Perm.refl _
      | false =>
        cases hrec : DataProcessor.insertAsc key xs r with
        | error e => rw [hrec] at h; exact absurd h (by simp)
        | ok out2 =>
          rw [hrec] at h
          simp only [Except.ok.injEq] at h
          subst h
          exact ((ih r out2 hrec).cons x).trans (List.Perm.swap r x xs)

theorem insertDesc_perm {α : Type} (key : α → Value) : ∀ (acc : List α) (r : α)
    (out : List α), DataProcessor.insertDesc key acc r = .ok out → out.Perm (r :: acc) := by
  intro acc
  induction acc with
  | nil =>
    intro r out h
    simp only [DataProcessor.insertDesc, Except.ok.injEq] at h
    subst h
    exact List.Perm.refl _
  | cons x xs ih =>
    intro r out h
    unfold DataProcessor.insertDesc at h
    cases hc : vlt (key x) (key r) with
    | error e => rw [hc] at h; exact absurd h (by simp)
    | ok b =>
      rw [hc] at h
      cases b with
      | true =>
        simp only [Except.ok.injEq] at h
        subst h
        exact List.Perm.refl _
      | false =>
        cases hrec : DataProcessor.insertDesc key xs r with
        | error e => rw [hrec] at h; exact absurd h (by simp)
        | ok out2 =>
          rw [hrec] at h
          simp only [Except.ok.injEq] at h
          subst h
          exact ((ih r out2 hrec).cons x).trans (List.Perm.swap r x xs)

theorem insertAsc_sorted {α : Type} (key : α → Value) : ∀ (acc : List α) (r : α)
    (out : List α), ascOrdered key acc → DataProcessor.insertAsc key acc r = .ok out →
    ascOrdered key out := by
  intro acc
  induction acc with
  | nil =>
    intro r out _ h
    simp only [DataProcessor.insertAsc, Except.ok.injEq] at h
    subst h
    exact List.pairwise_singleton _ _
  | cons x xs ih =>
    intro r out hsort h
    obtain ⟨hx, hxs⟩ := List.pairwise_cons.mp hsort
    unfold DataProcessor.insertAsc at h
    cases hc : vlt (key r) (key x) with
    | error e => rw [hc] at h; exact absurd h (by simp)
    | ok b =>
      rw [hc] at h
      cases b with
      | true =>
        simp only [Except.ok.injEq] at h
        subst h
        refine List.pairwise_cons.mpr ⟨?_, hsort⟩
        intro z hz
        rcases List.mem_cons.mp hz with rfl | hz
        · exact vlt_asymm _ _ hc
        · rcases vlt_total _ _ (hx z hz) with heq | hlt
          · rw [vlt_congr_left (key z) (key x) (key r) heq]
            exact vlt_asymm _ _ hc
          · exact vlt_asymm _ _ (vlt_trans _ _ _ hc hlt)
      | false =>
        cases hrec : DataProcessor.insertAsc key xs r with
        | error e => rw [hrec] at h; exact absurd h (by simp)
        | ok out2 =>
          rw [hrec] at h
          simp only [Except.ok.injEq] at h
          subst h
          refine List.pairwise_cons.mpr ⟨?_, ih r out2 hxs hrec⟩
          intro z hz
          rcases List.mem_cons.mp ((insertAsc_perm key xs r out2 hrec).mem_iff.mp hz)
            with rfl | hz
          · exact hc
          · exact hx z hz

theorem insertDesc_sorted {α : Type} (key : α → Value) : ∀ (acc : List α) (r : α)
    (out : List α), descOrdered key acc → DataProcessor.insertDesc key acc r = .ok out →
    descOrdered key out := by
  intro acc
  induction acc with
  | nil =>
    intro r out _ h
    simp only [DataProcessor.insertDesc, Except.ok.injEq] at h
    subst h
    exact List.pairwise_singleton _ _
  | cons x xs ih =>
    intro r out hsort h
    obtain ⟨hx, hxs⟩ := List.pairwise_cons.mp hsort
    unfold DataProcessor.insertDesc at h
    cases hc : vlt (key x) (key r) with
    | error e => rw [hc] at h; exact absurd h (by simp)
    | ok b =>
      rw [hc] at h
      cases b with
      | true =>
        simp only [Except.ok.injEq] at h
        subst h
        refine List.pairwise_cons.mpr ⟨?_, hsort⟩
        intro z hz
        rcases List.mem_cons.mp hz with rfl | hz
        · exact vlt_asymm _ _ hc
        · rcases vlt_total _ _ (hx z hz) with heq | hlt
          · rw [← vlt_congr_right (key r) (key x) (key z) heq]
            exact vlt_asymm _ _ hc
          · exact vlt_asymm _ _ (vlt_trans _ _ _ hlt hc)
      | false =>
        cases hrec : DataProcessor.insertDesc key xs r with
        | error e => rw [hrec] at h; exact absurd h (by simp)
        | ok out2 =>
          rw [hrec] at h
          simp only [Except.ok.injEq] at h
          subst h
          refine List.pairwise_cons.mpr ⟨?_, ih r out2 hxs hrec⟩
          intro z hz
          rcases List.mem_cons.mp ((insertDesc_perm key xs r out2 hrec).mem_iff.mp hz)
            with rfl | hz
          · exact hc
          · exact hx z hz

theorem insertAsc_stable {α : Type} (key : α → Value) : ∀ (acc : List α) (r : α)
    (out : List α) (kv : Value), ascOrdered key acc →
    DataProcessor.insertAsc key acc r = .ok out →
    out.filter (fun z => veq (key z) kv) =
      acc.filter (fun z => veq (key z) kv) ++ if veq (key r) kv then [r] else [] := by
  intro acc
  induction acc with
  | nil =>
    intro r out kv _ h
    simp only [DataProcessor.insertAsc, Except.ok.injEq] at h
    subst h
    cases hr : veq (key r) kv <;> simp [List.filter_cons, hr]
  | cons x xs ih =>
    intro r out kv hsort h
    obtain ⟨hx, hxs⟩ := List.pairwise_cons.mp hsort
    unfold DataProcessor.insertAsc at h
    cases hc : vlt (key r) (key x) with
    | error e => rw [hc] at h; exact absurd h (by simp)
    | ok b =>
      rw [hc] at h
      cases b with
      | true =>
        simp only [Except.ok.injEq] at h
        subst h
        cases hr : veq (key r) kv with
        | false => simp [List.filter_cons, hr]
        | true =>
          have hnil : (x :: xs).filter (fun z => veq (key z) kv) = [] := by
            refine List.filter_eq_nil_iff.mpr ?_
            intro z hz hzkv
            have hzr : veq (key z) (key r) = true := by
              refine veq_trans _ _ _ hzkv ?_
              rw [veq_symm]
              exact hr
            have hrz : veq (key r) (key z) = true := by rw [veq_symm]; exact hzr
            rcases List.mem_cons.mp hz with rfl | hz2
            · exact veq_vlt (key r) (key z) hrz hc
            · rw [vlt_congr_left (key r) (key z) (key x) hrz, hx z hz2] at hc
              exact absurd hc (by simp)
          simp [List.filter_cons, hr, hnil]
      | false =>
        cases hrec : DataProcessor.insertAsc key xs r with
        | error e => rw [hrec] at h; exact absurd h (by simp)
        | ok out2 =>
          rw [hrec] at h
          simp only [Except.ok.injEq] at h
          subst h
          rw [List.filter_cons, List.filter_cons, ih r out2 kv hxs hrec]
          cases hxkv : veq (key x) kv <;> simp [hxkv]

theorem insertDesc_stable {α : Type} (key : α → Value) : ∀ (acc : List α) (r : α)
    (out : List α) (kv : Value), descOrdered key acc →
    DataProcessor.insertDesc key acc r = .ok out →
    out.filter (fun z => veq (key z) kv) =
      acc.filter (fun z => veq (key z) kv) ++ if veq (key r) kv then [r] else [] := by
  intro acc
  induction acc with
  | nil =>
    intro r out kv _ h
    simp only [DataProcessor.insertDesc, Except.ok.injEq] at h
    subst h
    cases hr : veq (key r) kv <;> simp [List.filter_cons, hr]
  | cons x xs ih =>
    intro r out kv hsort h
    obtain ⟨hx, hxs⟩ := List.pairwise_cons.mp hsort
    unfold DataProcessor.insertDesc at h
    cases hc : vlt (key x) (key r) with
    | error e => rw [hc] at h; exact absurd h (by simp)
    | ok b =>
      rw [hc] at h
      cases b with
      | true =>
        simp only [Except.ok.injEq] at h
        subst h
        cases hr : veq (key r) kv with
        | false => simp [List.filter_cons, hr]
        | true =>
          have hnil : (x :: xs).filter (fun z => veq (key z) kv) = [] := by
            refine List.filter_eq_nil_iff.mpr ?_
            intro z hz hzkv
            have hzr : veq (key z) (key r) = true := by
              refine veq_trans _ _ _ hzkv ?_
              rw [veq_symm]
              exact hr
            rcases List.mem_cons.mp hz with rfl | hz2
            · exact veq_vlt (key z) (key r) hzr hc
            · rw [← vlt_congr_right (key x) (key z) (key r) hzr, hx z hz2] at hc
              exact absurd hc (by simp)
          simp [List.filter_cons, hr, hnil]
      | false =>
        cases hrec : DataProcessor.insertDesc key xs r with
        | error e => rw [hrec] at h; exact absurd h (by simp)
        | ok out2 =>
          rw [hrec] at h
          simp only [Except.ok.injEq] at h
          subst h
          rw [List.filter_cons, List.filter_cons, ih r out2 kv hxs hrec]
          cases hxkv : veq (key x) kv <;> simp [hxkv]

theorem sortAsc_go {α : Type} (key : α → Value) : ∀ (l acc out : List α),
    ascOrdered key acc →
    List.foldlM (DataProcessor.insertAsc key) acc l = .ok out →
    out.Perm (acc ++ l) ∧ ascOrdered key out ∧
    ∀ kv, out.filter (fun z => veq (key z) kv) =
      acc.filter (fun z => veq (key z) kv) ++ l.filter (fun z => veq (key z) kv) := by
  intro l
  induction l with
  | nil =>
    intro acc out hsort h
    replace h : acc = out := by simpa [pure, Except.pure] using h
    subst h
    exact ⟨by simp, hsort, fun kv => by simp⟩
  | cons r l ih =>
    intro acc out hsort h
    rw [List.foldlM_cons] at h
    cases hmid : DataProcessor.insertAsc key acc r with
    | error e => rw [hmid] at h; exact absurd h (by simp [bind, Except.bind])
    | ok mid =>
      rw [hmid] at h
      simp only [bind, Except.bind] at h
      obtain ⟨hperm, hsrt, hstab⟩ := ih mid out (insertAsc_sorted key acc r mid hsort hmid) h
      refine ⟨?_, hsrt, ?_⟩
      · refine hperm.trans ?_
        have h1 : (mid ++ l).Perm ((r :: acc) ++ l) :=
          (insertAsc_perm key acc r mid hmid).append_right l
        exact h1.trans List.perm_middle.symm
      · intro kv
        rw [hstab kv, insertAsc_stable key acc r mid kv hsort hmid]
        cases hr : veq (key r) kv <;> simp [List.filter_cons, hr]

theorem sortDesc_go {α : Type} (key : α → Value) : ∀ (l acc out : List α),
    descOrdered key acc →
    List.foldlM (DataProcessor.insertDesc key) acc l = .ok out →
    out.Perm (acc ++ l) ∧ descOrdered key out ∧
    ∀ kv, out.filter (fun z => veq (key z) kv) =
      acc.filter (fun z => veq (key z) kv) ++ l.filter (fun z => veq (key z) kv) := by
  intro l
  induction l with
  | nil =>
    intro acc out hsort h
    replace h : acc = out := by simpa [pure, Except.pure] using h
    subst h
    exact ⟨by simp, hsort, fun kv => by simp⟩
  | cons r l ih =>
    intro acc out hsort h
    rw [List.foldlM_cons] at h
    cases hmid : DataProcessor.insertDesc key acc r with
    | error e => rw [hmid] at h; exact absurd h (by simp [bind, Except.bind])
    | ok mid =>
      rw [hmid] at h
      simp only [bind, Except.bind] at h
      obtain ⟨hperm, hsrt, hstab⟩ := ih mid out (insertDesc_sorted key acc r mid hsort hmid) h
      refine ⟨?_, hsrt, ?_⟩
      · refine hperm.trans ?_
        have h1 : (mid ++ l).Perm ((r :: acc) ++ l) :=
          (insertDesc_perm key acc r mid hmid).append_right l
        exact h1.trans List.perm_middle.symm
      · intro kv
        rw [hstab kv, insertDesc_stable key acc r mid kv hsort hmid]
        cases hr : veq (key r) kv <;> simp [List.filter_cons, hr]

theorem sortAscE_spec {α : Type} (key : α → Value) (data out : List α)
    (h : DataProcessor.sortAscE key data = .ok out) :
    out.Perm data ∧ ascOrdered key out ∧
    ∀ kv, out.filter (fun z => veq (key z) kv) = data.filter (fun z => veq (key z) kv) := by
  obtain ⟨hperm, hsrt, hstab⟩ :=
    sortAsc_go key data [] out (List.Pairwise.nil) h
  exact ⟨by simpa using hperm, hsrt, fun kv => by simpa using hstab kv⟩

theorem sortDescE_spec {α : Type} (key : α → Value) (data out : List α)
    (h : DataProcessor.sortDescE key data = .ok out) :
    out.Perm data ∧ descOrdered key out ∧
    ∀ kv, out.filter (fun z => veq (key z) kv) = data.filter (fun z => veq (key z) kv) := by
  obtain ⟨hperm, hsrt, hstab⟩ :=
    sortDesc_go key data [] out (List.Pairwise.nil) h
  exact ⟨by simpa using hperm, hsrt, fun kv => by simpa using hstab kv⟩

theorem sorted_desc_unique {α : Type} (key : α → Value) : ∀ l1 l2 : List α,
    l1.Perm l2 →
    l1.Pairwise (fun x y => veq (key x) (key y) = false) →
    descOrdered key l1 → descOrdered key l2 → l1 = l2 := by
  intro l1
  induction l1 with
  | nil =>
    intro l2 hp _ _ _
    exact (hp.symm.eq_nil).symm
  | cons x l1 ih =>
    intro l2 hp hdist hs1 hs2
    cases l2 with
    | nil => exact absurd hp.eq_nil (by simp)
    | cons y l2 =>
      by_cases hxy : x = y
      · subst hxy
        have hp2 : l1.Perm l2 := hp.cons_inv
        rw [ih l2 hp2 (List.pairwise_cons.mp hdist).2 (List.pairwise_cons.mp hs1).2
          (List.pairwise_cons.mp hs2).2]
      · exfalso
        have hx2 : x ∈ l2 := by
          rcases List.mem_cons.mp (hp.mem_iff.mp (List.mem_cons_self x l1)) with h | h
          · exact absurd h hxy
          · exact h
        have hy1 : y ∈ l1 := by
          rcases List.mem_cons.mp (hp.symm.mem_iff.mp (List.mem_cons_self y l2)) with h | h
          · exact absurd h.symm hxy
          · exact h
        have hSxy : vlt (key x) (key y) = .ok false := (List.pairwise_cons.mp hs1).1 y hy1
        have hSyx : vlt (key y) (key x) = .ok false := (List.pairwise_cons.mp hs2).1 x hx2
        rcases vlt_total (key x) (key y) hSxy with heq | hlt
        · exact absurd heq (by simp [(List.pairwise_cons.mp hdist).1 y hy1])
        · rw [hlt] at hSyx
          exact absurd hSyx (by simp)

/-- Claim C5: `DataProcessor.sort` is stable in both directions (for every
key value, the rows carrying veq-equal sort keys appear in the output in
their original relative order), the order word desc is matched
case-insensitively, and on pairwise-distinct sort keys a desc sort is exactly
the reverse of the asc sort. -/
theorem claim_C5_sort_stable_desc_reverse (data : List Row) (fld : String) :
    (∀ A, DataProcessor.sort data fld "asc" = .ok A →
      ∀ kv, A.filter (fun r => veq (DataProcessor.sortKey fld r) kv) =
        data.filter (fun r => veq (DataProcessor.sortKey fld r) kv)) ∧
    (∀ D, DataProcessor.sort data fld "desc" = .ok D →
      ∀ kv, D.filter (fun r => veq (DataProcessor.sortKey fld r) kv) =
        data.filter (fun r => veq (DataProcessor.sortKey fld r) kv)) ∧
    DataProcessor.sort data fld "DESC" = DataProcessor.sort data fld "desc" ∧
    (∀ A D, DataProcessor.sort data fld "asc" = .ok A →
      DataProcessor.sort data fld "desc" = .ok D →
      data.Pairwise (fun r s =>
        veq (DataProcessor.sortKey fld r) (DataProcessor.sortKey fld s) = false) →
      D = A.reverse) := by
  have hasc : DataProcessor.sort data fld "asc" =
      DataProcessor.sortAscE (DataProcessor.sortKey fld) data := by
    simp only [DataProcessor.sort]
    rw [if_neg (by decide)]
  have hdesc : DataProcessor.sort data fld "desc" =
      DataProcessor.sortDescE (DataProcessor.sortKey fld) data := by
    simp only [DataProcessor.sort]
    rw [if_pos (by decide)]
  have hDESC : DataProcessor.sort data fld "DESC" =
      DataProcessor.sortDescE (DataProcessor.sortKey fld) data := by
    simp only [DataProcessor.sort]
    rw [if_pos (by decide)]
  refine ⟨?_, ?_, by rw [hDESC, hdesc], ?_⟩
  · intro A hA kv
    rw [hasc] at hA
    exact (sortAscE_spec _ data A hA).2.2 kv
  · intro D hD kv
    rw [hdesc] at hD
    exact (sortDescE_spec _ data D hD).2.2 kv
  · intro A D hA hD hdist
    rw [hasc] at hA
    rw [hdesc] at hD
    obtain ⟨hpA, hsA, _⟩ := sortAscE_spec _ data A hA
    obtain ⟨hpD, hsD, _⟩ := sortDescE_spec _ data D hD
    have hsymm : ∀ {x y : Row},
        veq (DataProcessor.sortKey fld x) (DataProcessor.sortKey fld y) = false →
        veq (DataProcessor.sortKey fld y) (DataProcessor.sortKey fld x) = false := by
      intro x y h
      rw [veq_symm]
      exact h
    have hdistD : D.Pairwise (fun r s =>
        veq (DataProcessor.sortKey fld r) (DataProcessor.sortKey fld s) = false) :=
      (List.Perm.pairwise_iff @hsymm hpD).mpr hdist
    have hsRevA : descOrdered (DataProcessor.sortKey fld) A.reverse := by
      simpa [descOrdered, ascOrdered, List.pairwise_reverse] using hsA
    have hpermDA : D.Perm A.reverse :=
      hpD.trans (hpA.symm.trans (List.reverse_perm A).symm)
    exact sorted_desc_unique _ D A.reverse hpermDA hdistD hsD hsRevA

theorem claim_C5_sort_stable_desc_reverse_witness :
    ([[("a", Value.int 1)], [("a", Value.int 2)]] : List Row).filter
        (fun r => veq (DataProcessor.sortKey "a" r) (Value.int 1)) =
      ([[("a", Value.int 2)], [("a", Value.int 1)]] : List Row).filter
        (fun r => veq (DataProcessor.sortKey "a" r) (Value.int 1)) ∧
    ([[("a", Value.int 2)], [("a", Value.int 1)]] : List Row) =
      ([[("a", Value.int 1)], [("a", Value.int 2)]] : List Row).reverse := by
  have h := claim_C5_sort_stable_desc_reverse
    [[("a", Value.int 2)], [("a", Value.int 1)]] "a"
  refine ⟨h.1 [[("a", Value.int 1)], [("a", Value.int 2)]] rfl (Value.int 1),
    h.2.2.2 [[("a", Value.int 1)], [("a", Value.int 2)]]
      [[("a", Value.int 2)], [("a", Value.int 1)]] rfl rfl ?_⟩
  refine List.Pairwise.cons ?_ (List.pairwise_singleton _ _)
  intro z hz
  rw [List.mem_singleton.mp hz]
  rfl
